import Mathlib

/-!
Shallow embedding of the command-line driver of zynq-mkbootimage
(src/mkbootimage.c).  The BIF parser, the size estimator and the image
compositor live outside this file's source tree; they are modelled as an
environment (oracle) whose fields give the outcome of each external call.
The driver itself — filename derivation, architecture selection, the
power-of-two buffer rounding loop, the control flow from parsing to
writing the output file — is translated faithfully, and each run records
a trace of the externally visible events it performs.
-/

namespace Mkbootimage

/-- Target architecture flag, as selected by the driver from the
command-line `zynqmp` switch (mkbootimage.c lines 187-188). -/
inductive Arch where
  | zynq
  | zynqmp
deriving DecidableEq, Repr

/-- One parsed BIF node, as printed by the driver loop
(mkbootimage.c lines 210-220): file name, bootloader flag, load
address and offset. -/
structure Node where
  fname : List Char
  bootloader : Bool
  load : Nat
  offset : Nat
deriving DecidableEq, Repr

/-- Parsed command-line arguments (struct arguments, lines 55-61).
Filenames are optional: argp guarantees at least one of the two is
present (ARGP_KEY_END check, lines 128-131). -/
structure Arguments where
  zynqmp : Bool
  parse_only : Bool
  bit2bin : Bool
  bif_filename : Option (List Char)
  bin_filename : Option (List Char)
deriving DecidableEq, Repr

/-- Outcomes of the external calls made by one run of main: each
allocation's success, the parser's error code (0 = success) and the
nodes it writes into the configuration, the estimator's size, the
compositor's error code and output word count, and whether the output
file can be opened.  The parser, estimator and compositor are outside
the embedded source, so their results are oracle fields. -/
structure Env where
  mallocDeriveInput : Bool
  mallocDeriveOutput : Bool
  mallocBifBuf : Bool
  parseErr : Nat
  parseNodes : List Node
  esize : Nat
  mallocFileData : Bool
  composeErr : Nat
  composeSize : Nat
  fopenOk : Bool
deriving DecidableEq, Repr

/-- The source handed to the BIF parser: either a file path
(bif_parse, line 200) or an in-memory buffer with an origin label
(bif_parse_buf, line 197). -/
inductive ParseSource where
  | file (path : List Char)
  | buffer (contents : List Char) (label : List Char)
deriving DecidableEq, Repr

/-- Externally visible events of one driver run, in order. -/
inductive Event where
  | deriveInput (result : List Char)
  | deriveOutput (result : List Char)
  | setArch (a : Arch)
  | setBops (a : Arch)
  | parse (src : ParseSource)
  | estimate
  | allocFileData (capacityWords : Nat)
  | compose
  | freeFileData
  | openOutput (path : List Char)
  | writeWords (count : Nat)
  | closeOutput
deriving DecidableEq, Repr

/-- Modelled from the spec: the process result codes.  The numeric
error constants come from common.h, which is not part of the embedded
source; the spec describes them as distinct abstract kinds
(out-of-memory, output-not-writable, no-partitions-produced, ...), so
they are modelled as distinct constructors.  err e carries a nonzero
error code propagated unchanged from the parser or the compositor. -/
inductive RetCode where
  | exitSuccess
  | exitFailure
  | errNomem
  | errCantWrite
  | errBootromNofile
  | err (e : Nat)
deriving DecidableEq, Repr

/-- Is this character a directory separator?  derive_filename
recognizes both the slash and the backslash (lines 64-65). -/
def isSep (c : Char) : Bool := c = '/' || c = '\\'

/-- Is this character a dot? -/
def isDot (c : Char) : Bool := c = '.'

/-- Index of the last character satisfying p, if any (the strrchr
idiom of derive_filename). -/
def lastIdxOf (p : Char → Bool) : List Char → Option Nat
  | [] => none
  | c :: cs =>
    match lastIdxOf p cs with
    | some i => some (i + 1)
    | none => if p c then some 0 else none

/-- Start index of the path's basename: one past the last separator,
or 0 when there is none (lines 64-76: base is the later of the last
slash and the last backslash, advanced by one). -/
def baseStart (src : List Char) : Nat :=
  match lastIdxOf isSep src with
  | some i => i + 1
  | none => 0

/-- derive_filename (lines 63-90): copy src up to the last dot of its
basename (or all of src when the basename has no dot) and append the
new extension. -/
def derive_filename (src ext : List Char) : List Char :=
  let b := baseStart src
  match lastIdxOf isDot (src.drop b) with
  | some j => src.take (b + j) ++ ext
  | none => src ++ ext

/-- One doubling step of the alignment loop on a uint32_t
(esize_aligned *= 2, line 236). -/
def alignStep (a : Nat) : Nat := (a * 2) % 2 ^ 32

/-- The power-of-two rounding loop (lines 234-236), with explicit
fuel: from accumulator a, double while a < esize; none means the fuel
ran out before the loop exited. -/
def alignLoop : Nat → Nat → Nat → Option Nat
  | 0, _, _ => none
  | fuel + 1, esize, a =>
    if a < esize then alignLoop fuel esize (alignStep a) else some a

/-- The loop as run by the driver: start from 2; 33 steps of fuel are
enough for every terminating execution, since the accumulator walks
2, 4, ..., 2^31 and then wraps to 0. -/
def esizeAlign (esize : Nat) : Option Nat := alignLoop 33 esize 2

/-- The rounding loop terminates on esize (starting, as the driver
does, from 2). -/
def alignTerminates (esize : Nat) : Prop :=
  ∃ fuel r, alignLoop fuel esize 2 = some r

/-- The BIF document synthesized in bit2bin mode (lines 191-196):
the format string "all: \x7b %s \x7d\n" applied to the input path. -/
def bit2binDoc (path : List Char) : List Char :=
  "all: \x7b ".toList ++ path ++ " \x7d\n".toList

/-- The origin label passed to bif_parse_buf in bit2bin mode. -/
def bit2binLabel : List Char := "<bit2bin>".toList

/-- Extension constants used by the driver's filename derivation. -/
def dotBit : List Char := ".bit".toList

def dotBif : List Char := ".bif".toList

def dotBin : List Char := ".bin".toList

/-- Stage of main after a successful create_boot_image or its failure
(lines 246-267): on compositor error free the buffer and propagate the
code; otherwise open the output, and on success write exactly
ofile_size words. -/
def afterAlloc (env : Env) (binOpt : Option (List Char)) (ev : List Event) :
    Option (RetCode × List Event) :=
  let ev2 := ev ++ [Event.compose]
  if env.composeErr ≠ 0 then
    some (RetCode.err env.composeErr, ev2 ++ [Event.freeFileData])
  else
    let bin := binOpt.getD []
    let ev3 := ev2 ++ [Event.openOutput bin]
    if env.fopenOk then
      some (RetCode.exitSuccess,
        ev3 ++ [Event.writeWords (env.composeSize % 2 ^ 32),
                Event.closeOutput, Event.freeFileData])
    else
      some (RetCode.errCantWrite, ev3 ++ [Event.freeFileData])

/-- Stage of main from the size estimate onward (lines 229-243): a
zero estimate is no-partitions; the estimate is rounded up to a power
of two and the buffer allocated with that capacity; none models the
nonterminating rounding loop. -/
def afterEstimate (env : Env) (binOpt : Option (List Char)) (ev : List Event) :
    Option (RetCode × List Event) :=
  let esize := env.esize % 2 ^ 32
  if esize = 0 then some (RetCode.errBootromNofile, ev)
  else
    match esizeAlign esize with
    | none => none
    | some ea =>
      let ev2 := ev ++ [Event.allocFileData ea]
      if env.mallocFileData then afterAlloc env binOpt ev2
      else some (RetCode.errNomem, ev2)

/-- Stage of main after bif_parse / bif_parse_buf returned (lines
202-231): a nonzero parser error is propagated unchanged; an empty
node list is no-partitions; parse-only mode then exits successfully;
otherwise the size estimator runs. -/
def afterParse (args : Arguments) (env : Env) (binOpt : Option (List Char))
    (ev : List Event) : Option (RetCode × List Event) :=
  if env.parseErr ≠ 0 then some (RetCode.err env.parseErr, ev)
  else if env.parseNodes.length = 0 then some (RetCode.errBootromNofile, ev)
  else if args.parse_only then some (RetCode.exitSuccess, ev)
  else afterEstimate env binOpt (ev ++ [Event.estimate])

/-- Stage of main from architecture selection through parsing (lines
184-201): cfg.arch and the bootrom ops table are both chosen once from
the zynqmp flag; bit2bin mode synthesizes the one-node BIF document in
a malloc'd buffer and hands it to the buffer parser entry, otherwise
the input file is parsed directly. -/
def runCore (args : Arguments) (env : Env) (bifName : List Char)
    (binOpt : Option (List Char)) (ev : List Event) :
    Option (RetCode × List Event) :=
  let a := if args.zynqmp then Arch.zynqmp else Arch.zynq
  let ev1 := ev ++ [Event.setArch a, Event.setBops a]
  if args.bit2bin then
    if env.mallocBifBuf then
      afterParse args env binOpt
        (ev1 ++ [Event.parse (ParseSource.buffer (bit2binDoc bifName) bit2binLabel)])
    else some (RetCode.errNomem, ev1)
  else
    afterParse args env binOpt (ev1 ++ [Event.parse (ParseSource.file bifName)])

/-- Output-filename resolution (lines 172-179): when no output name is
given and the run is not parse-only, derive one from the input name
with extension ".bin". -/
def runOutput (args : Arguments) (env : Env) (bifName : List Char)
    (ev : List Event) : Option (RetCode × List Event) :=
  match args.bin_filename with
  | some b => runCore args env bifName (some b) ev
  | none =>
    if args.parse_only then runCore args env bifName none ev
    else if env.mallocDeriveOutput then
      let dout := derive_filename bifName dotBin
      runCore args env bifName (some dout) (ev ++ [Event.deriveOutput dout])
    else some (RetCode.errNomem, ev)

/-- One full run of main after argument parsing (lines 162-274),
returning the process result and the event trace; none models a run
whose rounding loop never terminates.  Input-filename resolution
(lines 162-170): when no input name is given, derive one from the
output name with extension ".bit" in bit2bin mode, ".bif" otherwise. -/
def run (args : Arguments) (env : Env) : Option (RetCode × List Event) :=
  match args.bif_filename with
  | some given => runOutput args env given []
  | none =>
    if env.mallocDeriveInput then
      let ext := if args.bit2bin then dotBit else dotBif
      let di := derive_filename (args.bin_filename.getD []) ext
      runOutput args env di [Event.deriveInput di]
    else some (RetCode.errNomem, [])

/-- Does this event belong to the filename-derivation prologue? -/
def isDeriveEvent : Event → Bool
  | Event.deriveInput _ => true
  | Event.deriveOutput _ => true
  | Event.setArch _ => false
  | Event.setBops _ => false
  | Event.parse _ => false
  | Event.estimate => false
  | Event.allocFileData _ => false
  | Event.compose => false
  | Event.freeFileData => false
  | Event.openOutput _ => false
  | Event.writeWords _ => false
  | Event.closeOutput => false

/-- Is this a setArch or setBops (architecture selection) event? -/
def isSelectEvent : Event → Bool
  | Event.setArch _ => true
  | Event.setBops _ => true
  | Event.deriveInput _ => false
  | Event.deriveOutput _ => false
  | Event.parse _ => false
  | Event.estimate => false
  | Event.allocFileData _ => false
  | Event.compose => false
  | Event.freeFileData => false
  | Event.openOutput _ => false
  | Event.writeWords _ => false
  | Event.closeOutput => false

/-- How the input filename was resolved (lines 162-170): either given,
or derived from the output name with ".bit"/".bif". -/
def inputStage (args : Arguments) (env : Env) (bifName : List Char)
    (ev0 : List Event) : Prop :=
  (args.bif_filename = some bifName ∧ ev0 = []) ∨
  (args.bif_filename = none ∧ env.mallocDeriveInput = true ∧
    bifName = derive_filename (args.bin_filename.getD [])
      (if args.bit2bin then dotBit else dotBif) ∧
    ev0 = [Event.deriveInput bifName])

/-- How the output filename was resolved (lines 172-179): given, left
absent in parse-only mode, or derived from the input name with ".bin". -/
def outputStage (args : Arguments) (env : Env) (bifName : List Char)
    (binOpt : Option (List Char)) (evd : List Event) : Prop :=
  (∃ b, args.bin_filename = some b ∧ binOpt = some b ∧ evd = []) ∨
  (args.bin_filename = none ∧ args.parse_only = true ∧ binOpt = none ∧
    evd = []) ∨
  (args.bin_filename = none ∧ args.parse_only = false ∧
    env.mallocDeriveOutput = true ∧
    binOpt = some (derive_filename bifName dotBin) ∧
    evd = [Event.deriveOutput (derive_filename bifName dotBin)])

/-- Which source the parser was fed (lines 190-201): the synthesized
one-node document in bit2bin mode, the input file otherwise. -/
def parseStage (args : Arguments) (env : Env) (bifName : List Char)
    (psrc : ParseSource) : Prop :=
  (args.bit2bin = true ∧ env.mallocBifBuf = true ∧
    psrc = ParseSource.buffer (bit2binDoc bifName) bit2binLabel) ∨
  (args.bit2bin = false ∧ psrc = ParseSource.file bifName)

/-! ### Concrete fixtures used to witness the theorems below -/

/-- A sample parsed node. -/
def nodeH : Node := ⟨"fsbl.elf".toList, true, 0, 0⟩

/-- Arguments of an ordinary successful invocation. -/
def argsH : Arguments :=
  ⟨false, false, false, some "in.bif".toList, some "out.bin".toList⟩

/-- Environment of an ordinary successful run: everything succeeds,
one node, estimate 5 words, compositor uses 3 words. -/
def envH : Env := ⟨true, true, true, 0, [nodeH], 5, true, 0, 3, true⟩

/-- Environment identical to envH except that the output file cannot
be opened. -/
def envCW : Env := ⟨true, true, true, 0, [nodeH], 5, true, 0, 3, false⟩

/-- Environment identical to envH except that the parser fails with
error code 7. -/
def envPE : Env := ⟨true, true, true, 7, [], 5, true, 0, 3, true⟩

/-- Environment identical to envH except that the parser succeeds with
an empty node list. -/
def envE : Env := ⟨true, true, true, 0, [], 5, true, 0, 3, true⟩

/-- Arguments of a parse-only invocation. -/
def argsPO : Arguments :=
  ⟨false, true, false, some "in.bif".toList, none⟩

/-- Arguments of a bit2bin invocation. -/
def argsB2B : Arguments :=
  ⟨false, false, true, some "img.bit".toList, some "out.bin".toList⟩

/-- Environment whose estimated size exceeds 2^31, driving the rounding
loop into uint32 wraparound. -/
def envBig : Env := ⟨true, true, true, 0, [nodeH], 2 ^ 31 + 1, true, 0, 3, true⟩

/-- Trace of the ordinary successful run (run argsH envH). -/
def trH : List Event :=
  [Event.setArch Arch.zynq, Event.setBops Arch.zynq,
   Event.parse (ParseSource.file "in.bif".toList), Event.estimate,
   Event.allocFileData 8, Event.compose,
   Event.openOutput "out.bin".toList, Event.writeWords 3,
   Event.closeOutput, Event.freeFileData]

/-- Trace of the run whose output file cannot be opened. -/
def trCW : List Event :=
  [Event.setArch Arch.zynq, Event.setBops Arch.zynq,
   Event.parse (ParseSource.file "in.bif".toList), Event.estimate,
   Event.allocFileData 8, Event.compose,
   Event.openOutput "out.bin".toList, Event.freeFileData]

/-- Trace of a run that stops at the parser (parse error, empty
configuration, or parse-only mode). -/
def trP : List Event :=
  [Event.setArch Arch.zynq, Event.setBops Arch.zynq,
   Event.parse (ParseSource.file "in.bif".toList)]

/-- Arguments of a bit2bin invocation with no input name given: the
input is derived from the output name with ".bit". -/
def argsB2Bd : Arguments :=
  ⟨false, false, true, none, some "out.bin".toList⟩

/-- Trace of the successful derived-input bit2bin run
(run argsB2Bd envH). -/
def trB2Bd : List Event :=
  [Event.deriveInput "out.bit".toList,
   Event.setArch Arch.zynq, Event.setBops Arch.zynq,
   Event.parse (ParseSource.buffer (bit2binDoc "out.bit".toList) bit2binLabel),
   Event.estimate, Event.allocFileData 8, Event.compose,
   Event.openOutput "out.bin".toList, Event.writeWords 3,
   Event.closeOutput, Event.freeFileData]

/-- Trace of the successful bit2bin run (run argsB2B envH). -/
def trB2B : List Event :=
  [Event.setArch Arch.zynq, Event.setBops Arch.zynq,
   Event.parse (ParseSource.buffer (bit2binDoc "img.bit".toList) bit2binLabel),
   Event.estimate, Event.allocFileData 8, Event.compose,
   Event.openOutput "out.bin".toList, Event.writeWords 3,
   Event.closeOutput, Event.freeFileData]

/-! ### Properties of the power-of-two rounding loop -/

theorem two_pow_le_of_le_31 (j : Nat) (h : j ≤ 31) : 2 ^ j ≤ 2147483648 := by
  calc 2 ^ j ≤ 2 ^ 31 := Nat.pow_le_pow_right (by norm_num) h
  _ = 2147483648 := by norm_num

theorem alignLoop_pow_succeeds :
    ∀ fuel j esize, 1 ≤ esize → esize ≤ 2 ^ 31 → j ≤ 31 → 32 - j ≤ fuel →
    ∃ r k, alignLoop fuel esize (2 ^ j) = some r ∧ esize ≤ r ∧ j ≤ k ∧ r = 2 ^ k := by
  intro fuel
  induction fuel with
  | zero => intro j esize _ _ hj hf; omega
  | succ fuel ih =>
    intro j esize h1 h2 hj hf
    by_cases hlt : 2 ^ j < esize
    · have hjlt : j < 31 := by
        have hpow : 2 ^ j < 2 ^ 31 := lt_of_lt_of_le hlt h2
        exact (Nat.pow_lt_pow_iff_right (by norm_num)).mp hpow
      have hstep : alignStep (2 ^ j) = 2 ^ (j + 1) := by
        have hle : 2 ^ (j + 1) ≤ 2147483648 := two_pow_le_of_le_31 (j + 1) (by omega)
        unfold alignStep
        rw [← pow_succ]
        exact Nat.mod_eq_of_lt (by norm_num; omega)
      obtain ⟨r, k, hr, hesize, hjk, hpow⟩ :=
        ih (j + 1) esize h1 h2 (by omega) (by omega)
      refine ⟨r, k, ?_, hesize, by omega, hpow⟩
      simp [alignLoop, hlt, hstep, hr]
    · exact ⟨2 ^ j, j, by simp [alignLoop, hlt], by omega, le_refl j, rfl⟩

theorem esizeAlign_succeeds (esize : Nat) (h1 : 1 ≤ esize) (h2 : esize ≤ 2 ^ 31) :
    ∃ r k, esizeAlign esize = some r ∧ esize ≤ r ∧ 1 ≤ k ∧ r = 2 ^ k := by
  obtain ⟨r, k, hr, hesize, hk, hpow⟩ :=
    alignLoop_pow_succeeds 33 1 esize h1 h2 (by omega) (by omega)
  exact ⟨r, k, hr, hesize, hk, hpow⟩

theorem alignLoop_stuck_above (fuel : Nat) :
    ∀ a, (a = 0 ∨ ∃ j, j ≤ 31 ∧ a = 2 ^ j) →
    alignLoop fuel (2 ^ 31 + 1) a = none := by
  induction fuel with
  | zero => intro a _; rfl
  | succ fuel ih =>
    intro a ha
    have hlt : a < 2 ^ 31 + 1 := by
      rcases ha with h | ⟨j, hj, rfl⟩
      · omega
      · have := Nat.pow_le_pow_right (by norm_num : 1 ≤ 2) hj
        omega
    have hinv : alignStep a = 0 ∨ ∃ j, j ≤ 31 ∧ alignStep a = 2 ^ j := by
      rcases ha with h | ⟨j, hj, rfl⟩
      · left; simp [alignStep, h]
      · by_cases hj31 : j = 31
        · left
          subst hj31
          simp [alignStep, ← pow_succ]
        · right
          refine ⟨j + 1, by omega, ?_⟩
          have hle : 2 ^ (j + 1) ≤ 2147483648 := two_pow_le_of_le_31 (j + 1) (by omega)
          unfold alignStep
          rw [← pow_succ]
          exact Nat.mod_eq_of_lt (by norm_num; omega)
    have hlt2 : a < 2147483649 := by omega
    have hnone := ih _ hinv
    norm_num at hnone
    simp [alignLoop, hlt2, hnone]

/-! ### Properties of derive_filename -/

theorem lastIdxOf_eq_none (p : Char → Bool) :
    ∀ s : List Char, (∀ c ∈ s, p c = false) → lastIdxOf p s = none := by
  intro s
  induction s with
  | nil => intro _; rfl
  | cons c cs ih =>
    intro h
    have hcs : lastIdxOf p cs = none := ih fun x hx => h x (List.mem_cons_of_mem c hx)
    simp [lastIdxOf, hcs, h c (List.mem_cons_self c cs)]

theorem lastIdxOf_append_none (p : Char → Bool) (ys : List Char)
    (hys : ∀ c ∈ ys, p c = false) :
    ∀ xs : List Char, lastIdxOf p (xs ++ ys) = lastIdxOf p xs := by
  intro xs
  induction xs with
  | nil => simp [lastIdxOf, lastIdxOf_eq_none p ys hys]
  | cons c cs ih => simp [lastIdxOf, ih]

theorem lastIdxOf_append_last (p : Char → Bool) (y : Char) (ys : List Char)
    (hy : p y = true) (hys : ∀ c ∈ ys, p c = false) :
    ∀ xs : List Char, lastIdxOf p (xs ++ y :: ys) = some xs.length := by
  intro xs
  induction xs with
  | nil => simp [lastIdxOf, lastIdxOf_eq_none p ys hys, hy]
  | cons c cs ih => simp [lastIdxOf, ih]

theorem lastIdxOf_lt_length (p : Char → Bool) :
    ∀ (s : List Char) (i : Nat), lastIdxOf p s = some i → i < s.length := by
  intro s
  induction s with
  | nil => intro i h; simp [lastIdxOf] at h
  | cons c cs ih =>
    intro i h
    simp only [lastIdxOf] at h
    cases hcs : lastIdxOf p cs with
    | some j =>
      rw [hcs] at h
      have := ih j hcs
      simp at h
      simp [← h]
      omega
    | none =>
      rw [hcs] at h
      by_cases hp : p c <;> simp [hp] at h
      simp [← h]

/-- When the basename (the part after the last separator) has no dot,
derive_filename appends the new extension to the whole source. -/
theorem derive_filename_no_dot (src ext : List Char)
    (h : ∀ c ∈ src.drop (baseStart src), isDot c = false) :
    derive_filename src ext = src ++ ext := by
  simp [derive_filename, lastIdxOf_eq_none isDot _ h]

/-- When the source splits as stem ++ "." ++ suffix with a suffix free
of dots and separators, derive_filename replaces that final extension:
the result is stem ++ ext. -/
theorem derive_filename_replaces (stem suffix ext : List Char)
    (h : ∀ c ∈ suffix, isDot c = false ∧ isSep c = false) :
    derive_filename (stem ++ '.' :: suffix) ext = stem ++ ext := by
  have hsepTail : ∀ c ∈ '.' :: suffix, isSep c = false := by
    intro c hc
    rcases List.mem_cons.mp hc with rfl | hc
    · rfl
    · exact (h c hc).2
  have hbase : baseStart (stem ++ '.' :: suffix) ≤ stem.length := by
    unfold baseStart
    rw [lastIdxOf_append_none isSep _ hsepTail]
    cases hidx : lastIdxOf isSep stem with
    | none => simp
    | some i =>
      have := lastIdxOf_lt_length isSep stem i hidx
      simp
      omega
  set b := baseStart (stem ++ '.' :: suffix) with hb
  have hdrop : (stem ++ '.' :: suffix).drop b = stem.drop b ++ '.' :: suffix := by
    rw [List.drop_append_eq_append_drop]
    have : b - stem.length = 0 := by omega
    rw [this, List.drop_zero]
  have hdot : lastIdxOf isDot ((stem ++ '.' :: suffix).drop b) =
      some (stem.length - b) := by
    rw [hdrop, lastIdxOf_append_last isDot '.' suffix rfl (fun c hc => (h c hc).1),
      List.length_drop]
  have htake : (stem ++ '.' :: suffix).take (b + (stem.length - b)) = stem := by
    have : b + (stem.length - b) = stem.length := by omega
    rw [this, List.take_left]
  simp only [derive_filename, hdot]
  rw [htake]

/-! ### Exhaustive case analysis of one driver run, stage by stage -/

theorem afterAlloc_cases (env : Env) (binOpt : Option (List Char)) (ev : List Event)
    (ret : RetCode) (tr : List Event)
    (h : afterAlloc env binOpt ev = some (ret, tr)) :
    (env.composeErr ≠ 0 ∧ ret = RetCode.err env.composeErr ∧
      tr = ev ++ [Event.compose, Event.freeFileData]) ∨
    (env.composeErr = 0 ∧ env.fopenOk = true ∧ ret = RetCode.exitSuccess ∧
      tr = ev ++ [Event.compose, Event.openOutput (binOpt.getD []),
        Event.writeWords (env.composeSize % 2 ^ 32), Event.closeOutput,
        Event.freeFileData]) ∨
    (env.composeErr = 0 ∧ env.fopenOk = false ∧ ret = RetCode.errCantWrite ∧
      tr = ev ++ [Event.compose, Event.openOutput (binOpt.getD []),
        Event.freeFileData]) := by
  unfold afterAlloc at h
  split_ifs at h with hc hf <;>
    simp only [Option.some.injEq, Prod.mk.injEq] at h <;>
    simp_all

theorem afterEstimate_cases (env : Env) (binOpt : Option (List Char)) (ev : List Event)
    (ret : RetCode) (tr : List Event)
    (h : afterEstimate env binOpt ev = some (ret, tr)) :
    (env.esize % 2 ^ 32 = 0 ∧ ret = RetCode.errBootromNofile ∧ tr = ev) ∨
    (∃ ea, env.esize % 2 ^ 32 ≠ 0 ∧ esizeAlign (env.esize % 2 ^ 32) = some ea ∧
      ((env.mallocFileData = false ∧ ret = RetCode.errNomem ∧
         tr = ev ++ [Event.allocFileData ea]) ∨
       (env.mallocFileData = true ∧
         afterAlloc env binOpt (ev ++ [Event.allocFileData ea]) = some (ret, tr)))) := by
  simp only [afterEstimate] at h
  by_cases h0 : env.esize % 2 ^ 32 = 0
  · rw [if_pos h0] at h
    simp only [Option.some.injEq, Prod.mk.injEq] at h
    exact Or.inl ⟨h0, h.1.symm, h.2.symm⟩
  · rw [if_neg h0] at h
    cases hea : esizeAlign (env.esize % 2 ^ 32) with
    | none => rw [hea] at h; exact absurd h (by simp)
    | some ea =>
      rw [hea] at h
      have h2 : (if env.mallocFileData = true
          then afterAlloc env binOpt (ev ++ [Event.allocFileData ea])
          else some (RetCode.errNomem, ev ++ [Event.allocFileData ea])) =
          some (ret, tr) := h
      by_cases hm : env.mallocFileData
      · rw [if_pos hm] at h2
        exact Or.inr ⟨ea, h0, rfl, Or.inr ⟨hm, h2⟩⟩
      · rw [if_neg hm] at h2
        simp only [Option.some.injEq, Prod.mk.injEq] at h2
        exact Or.inr ⟨ea, h0, rfl,
          Or.inl ⟨by simp [hm], h2.1.symm, h2.2.symm⟩⟩

theorem afterParse_cases (args : Arguments) (env : Env) (binOpt : Option (List Char))
    (ev : List Event) (ret : RetCode) (tr : List Event)
    (h : afterParse args env binOpt ev = some (ret, tr)) :
    (env.parseErr ≠ 0 ∧ ret = RetCode.err env.parseErr ∧ tr = ev) ∨
    (env.parseErr = 0 ∧ env.parseNodes = [] ∧ ret = RetCode.errBootromNofile ∧
      tr = ev) ∨
    (env.parseErr = 0 ∧ env.parseNodes ≠ [] ∧ args.parse_only = true ∧
      ret = RetCode.exitSuccess ∧ tr = ev) ∨
    (env.parseErr = 0 ∧ env.parseNodes ≠ [] ∧ args.parse_only = false ∧
      afterEstimate env binOpt (ev ++ [Event.estimate]) = some (ret, tr)) := by
  unfold afterParse at h
  split_ifs at h with h1 h2 h3 <;>
    simp_all [List.length_eq_zero, Prod.mk.injEq]

theorem runCore_cases (args : Arguments) (env : Env) (bifName : List Char)
    (binOpt : Option (List Char)) (ev : List Event) (ret : RetCode) (tr : List Event)
    (h : runCore args env bifName binOpt ev = some (ret, tr)) :
    ∃ a, a = (if args.zynqmp then Arch.zynqmp else Arch.zynq) ∧
    ((args.bit2bin = true ∧ env.mallocBifBuf = false ∧ ret = RetCode.errNomem ∧
       tr = ev ++ [Event.setArch a, Event.setBops a]) ∨
     (args.bit2bin = true ∧ env.mallocBifBuf = true ∧
       afterParse args env binOpt
         (ev ++ [Event.setArch a, Event.setBops a,
           Event.parse (ParseSource.buffer (bit2binDoc bifName) bit2binLabel)]) =
         some (ret, tr)) ∨
     (args.bit2bin = false ∧
       afterParse args env binOpt
         (ev ++ [Event.setArch a, Event.setBops a,
           Event.parse (ParseSource.file bifName)]) = some (ret, tr))) := by
  unfold runCore at h
  refine ⟨if args.zynqmp then Arch.zynqmp else Arch.zynq, rfl, ?_⟩
  split_ifs at h with hb hm <;> simp_all

theorem runOutput_cases (args : Arguments) (env : Env) (bifName : List Char)
    (ev : List Event) (ret : RetCode) (tr : List Event)
    (h : runOutput args env bifName ev = some (ret, tr)) :
    (∃ b, args.bin_filename = some b ∧
      runCore args env bifName (some b) ev = some (ret, tr)) ∨
    (args.bin_filename = none ∧ args.parse_only = true ∧
      runCore args env bifName none ev = some (ret, tr)) ∨
    (args.bin_filename = none ∧ args.parse_only = false ∧
      env.mallocDeriveOutput = true ∧
      runCore args env bifName (some (derive_filename bifName dotBin))
        (ev ++ [Event.deriveOutput (derive_filename bifName dotBin)]) =
        some (ret, tr)) ∨
    (args.bin_filename = none ∧ args.parse_only = false ∧
      env.mallocDeriveOutput = false ∧ ret = RetCode.errNomem ∧ tr = ev) := by
  unfold runOutput at h
  cases hb : args.bin_filename with
  | some b => rw [hb] at h; exact Or.inl ⟨b, rfl, h⟩
  | none =>
    rw [hb] at h
    split_ifs at h with hp hm <;> simp_all

theorem run_cases (args : Arguments) (env : Env) (ret : RetCode) (tr : List Event)
    (h : run args env = some (ret, tr)) :
    (args.bif_filename = none ∧ env.mallocDeriveInput = false ∧
      ret = RetCode.errNomem ∧ tr = []) ∨
    (∃ bifName ev0,
      ((args.bif_filename = some bifName ∧ ev0 = ([] : List Event)) ∨
       (args.bif_filename = none ∧ env.mallocDeriveInput = true ∧
         bifName = derive_filename (args.bin_filename.getD [])
           (if args.bit2bin then dotBit else dotBif) ∧
         ev0 = [Event.deriveInput bifName])) ∧
      runOutput args env bifName ev0 = some (ret, tr)) := by
  unfold run at h
  cases hb : args.bif_filename with
  | some given =>
    rw [hb] at h
    exact Or.inr ⟨given, [], Or.inl ⟨rfl, rfl⟩, h⟩
  | none =>
    rw [hb] at h
    by_cases hm : env.mallocDeriveInput
    · right
      refine ⟨_, _, Or.inr ⟨rfl, hm, rfl, rfl⟩, ?_⟩
      rw [if_pos hm] at h
      exact h
    · left
      rw [if_neg hm] at h
      simp only [Option.some.injEq, Prod.mk.injEq] at h
      exact ⟨rfl, by simp [hm], h.1.symm, h.2.symm⟩

theorem afterParse_outcomes (args : Arguments) (env : Env)
    (binOpt : Option (List Char)) (evbase : List Event) (ret : RetCode)
    (tr : List Event) (h : afterParse args env binOpt evbase = some (ret, tr)) :
    (env.parseErr ≠ 0 ∧ ret = RetCode.err env.parseErr ∧ tr = evbase) ∨
    (env.parseErr = 0 ∧ env.parseNodes = [] ∧ ret = RetCode.errBootromNofile ∧
      tr = evbase) ∨
    (env.parseErr = 0 ∧ env.parseNodes ≠ [] ∧ args.parse_only = true ∧
      ret = RetCode.exitSuccess ∧ tr = evbase) ∨
    (env.parseErr = 0 ∧ env.parseNodes ≠ [] ∧ args.parse_only = false ∧
      ((env.esize % 2 ^ 32 = 0 ∧ ret = RetCode.errBootromNofile ∧
         tr = evbase ++ [Event.estimate]) ∨
       (∃ ea, env.esize % 2 ^ 32 ≠ 0 ∧ esizeAlign (env.esize % 2 ^ 32) = some ea ∧
         ((env.mallocFileData = false ∧ ret = RetCode.errNomem ∧
            tr = evbase ++ [Event.estimate, Event.allocFileData ea]) ∨
          (env.mallocFileData = true ∧
            ((env.composeErr ≠ 0 ∧ ret = RetCode.err env.composeErr ∧
               tr = evbase ++ [Event.estimate, Event.allocFileData ea,
                 Event.compose, Event.freeFileData]) ∨
             (env.composeErr = 0 ∧ env.fopenOk = true ∧
               ret = RetCode.exitSuccess ∧
               tr = evbase ++ [Event.estimate, Event.allocFileData ea,
                 Event.compose, Event.openOutput (binOpt.getD []),
                 Event.writeWords (env.composeSize % 2 ^ 32),
                 Event.closeOutput, Event.freeFileData]) ∨
             (env.composeErr = 0 ∧ env.fopenOk = false ∧
               ret = RetCode.errCantWrite ∧
               tr = evbase ++ [Event.estimate, Event.allocFileData ea,
                 Event.compose, Event.openOutput (binOpt.getD []),
                 Event.freeFileData])))))))  := by
  rcases afterParse_cases args env binOpt evbase ret tr h with
    hc | hc | hc | ⟨h1, h2, h3, hest⟩
  · exact Or.inl hc
  · exact Or.inr (Or.inl hc)
  · exact Or.inr (Or.inr (Or.inl hc))
  · refine Or.inr (Or.inr (Or.inr ⟨h1, h2, h3, ?_⟩))
    rcases afterEstimate_cases env binOpt _ ret tr hest with
      ⟨he0, hret, htr⟩ | ⟨ea, heN, hea, hrest⟩
    · exact Or.inl ⟨he0, hret, by simp [htr]⟩
    · right
      refine ⟨ea, heN, hea, ?_⟩
      rcases hrest with ⟨hm, hret, htr⟩ | ⟨hm, hall⟩
      · exact Or.inl ⟨hm, hret, by simp [htr, List.append_assoc]⟩
      · right
        refine ⟨hm, ?_⟩
        rcases afterAlloc_cases env binOpt _ ret tr hall with
          ⟨hce, hret, htr⟩ | ⟨hce, hfo, hret, htr⟩ | ⟨hce, hfo, hret, htr⟩
        · exact Or.inl ⟨hce, hret, by simp [htr, List.append_assoc]⟩
        · exact Or.inr (Or.inl ⟨hce, hfo, hret, by simp [htr, List.append_assoc]⟩)
        · exact Or.inr (Or.inr ⟨hce, hfo, hret, by simp [htr, List.append_assoc]⟩)

theorem run_outcomes (args : Arguments) (env : Env) (ret : RetCode)
    (tr : List Event) (h : run args env = some (ret, tr)) :
    (args.bif_filename = none ∧ env.mallocDeriveInput = false ∧
      ret = RetCode.errNomem ∧ tr = []) ∨
    (∃ bifName ev0, inputStage args env bifName ev0 ∧
      ((args.bin_filename = none ∧ args.parse_only = false ∧
         env.mallocDeriveOutput = false ∧ ret = RetCode.errNomem ∧ tr = ev0) ∨
       (∃ binOpt evd a, outputStage args env bifName binOpt evd ∧
         a = (if args.zynqmp then Arch.zynqmp else Arch.zynq) ∧
         ((args.bit2bin = true ∧ env.mallocBifBuf = false ∧
            ret = RetCode.errNomem ∧
            tr = (ev0 ++ evd) ++ [Event.setArch a, Event.setBops a]) ∨
          (∃ psrc, parseStage args env bifName psrc ∧
            ((env.parseErr ≠ 0 ∧ ret = RetCode.err env.parseErr ∧
               tr = (ev0 ++ evd) ++
                 [Event.setArch a, Event.setBops a, Event.parse psrc]) ∨
             (env.parseErr = 0 ∧ env.parseNodes = [] ∧
               ret = RetCode.errBootromNofile ∧
               tr = (ev0 ++ evd) ++
                 [Event.setArch a, Event.setBops a, Event.parse psrc]) ∨
             (env.parseErr = 0 ∧ env.parseNodes ≠ [] ∧ args.parse_only = true ∧
               ret = RetCode.exitSuccess ∧
               tr = (ev0 ++ evd) ++
                 [Event.setArch a, Event.setBops a, Event.parse psrc]) ∨
             (env.parseErr = 0 ∧ env.parseNodes ≠ [] ∧
               args.parse_only = false ∧
               ((env.esize % 2 ^ 32 = 0 ∧ ret = RetCode.errBootromNofile ∧
                  tr = (ev0 ++ evd) ++
                    [Event.setArch a, Event.setBops a, Event.parse psrc] ++
                    [Event.estimate]) ∨
                (∃ ea, env.esize % 2 ^ 32 ≠ 0 ∧
                  esizeAlign (env.esize % 2 ^ 32) = some ea ∧
                  ((env.mallocFileData = false ∧ ret = RetCode.errNomem ∧
                     tr = (ev0 ++ evd) ++
                       [Event.setArch a, Event.setBops a, Event.parse psrc] ++
                       [Event.estimate, Event.allocFileData ea]) ∨
                   (env.mallocFileData = true ∧
                     ((env.composeErr ≠ 0 ∧
                        ret = RetCode.err env.composeErr ∧
                        tr = (ev0 ++ evd) ++
                          [Event.setArch a, Event.setBops a, Event.parse psrc] ++
                          [Event.estimate, Event.allocFileData ea,
                           Event.compose, Event.freeFileData]) ∨
                      (env.composeErr = 0 ∧ env.fopenOk = true ∧
                        ret = RetCode.exitSuccess ∧
                        tr = (ev0 ++ evd) ++
                          [Event.setArch a, Event.setBops a, Event.parse psrc] ++
                          [Event.estimate, Event.allocFileData ea,
                           Event.compose, Event.openOutput (binOpt.getD []),
                           Event.writeWords (env.composeSize % 2 ^ 32),
                           Event.closeOutput, Event.freeFileData]) ∨
                      (env.composeErr = 0 ∧ env.fopenOk = false ∧
                        ret = RetCode.errCantWrite ∧
                        tr = (ev0 ++ evd) ++
                          [Event.setArch a, Event.setBops a, Event.parse psrc] ++
                          [Event.estimate, Event.allocFileData ea,
                           Event.compose, Event.openOutput (binOpt.getD []),
                           Event.freeFileData]))))))))))))) := by
  rcases run_cases args env ret tr h with hc | ⟨bifName, ev0, hin, hro⟩
  · exact Or.inl hc
  · right
    refine ⟨bifName, ev0, hin, ?_⟩
    rcases runOutput_cases args env bifName ev0 ret tr hro with
      ⟨b, hb, hcore⟩ | ⟨hb, hp, hcore⟩ | ⟨hb, hp, hm, hcore⟩ | hc4
    · -- explicit output name
      right
      rcases runCore_cases args env bifName (some b) ev0 ret tr hcore with
        ⟨a, ha, hbr⟩
      refine ⟨some b, [], a, Or.inl ⟨b, hb, rfl, rfl⟩, ha, ?_⟩
      rcases hbr with ⟨hbb, hmb, hret, htr⟩ | ⟨hbb, hmb, hap⟩ | ⟨hbb, hap⟩
      · exact Or.inl ⟨hbb, hmb, hret, by simpa using htr⟩
      · refine Or.inr ⟨_, Or.inl ⟨hbb, hmb, rfl⟩, ?_⟩
        have heq : ev0 ++ [Event.setArch a, Event.setBops a,
            Event.parse (ParseSource.buffer (bit2binDoc bifName) bit2binLabel)] =
            (ev0 ++ []) ++ [Event.setArch a, Event.setBops a,
            Event.parse (ParseSource.buffer (bit2binDoc bifName) bit2binLabel)] := by
          simp
        have hres := afterParse_outcomes args env (some b) _ ret tr hap
        rw [heq] at hres
        simpa [List.append_assoc] using hres
      · refine Or.inr ⟨_, Or.inr ⟨hbb, rfl⟩, ?_⟩
        have heq : ev0 ++ [Event.setArch a, Event.setBops a,
            Event.parse (ParseSource.file bifName)] =
            (ev0 ++ []) ++ [Event.setArch a, Event.setBops a,
            Event.parse (ParseSource.file bifName)] := by
          simp
        have hres := afterParse_outcomes args env (some b) _ ret tr hap
        rw [heq] at hres
        simpa [List.append_assoc] using hres
    · -- parse-only with no output name
      right
      rcases runCore_cases args env bifName none ev0 ret tr hcore with
        ⟨a, ha, hbr⟩
      refine ⟨none, [], a, Or.inr (Or.inl ⟨hb, hp, rfl, rfl⟩), ha, ?_⟩
      rcases hbr with ⟨hbb, hmb, hret, htr⟩ | ⟨hbb, hmb, hap⟩ | ⟨hbb, hap⟩
      · exact Or.inl ⟨hbb, hmb, hret, by simpa using htr⟩
      · refine Or.inr ⟨_, Or.inl ⟨hbb, hmb, rfl⟩, ?_⟩
        have hres := afterParse_outcomes args env none _ ret tr hap
        simpa [List.append_assoc] using hres
      · refine Or.inr ⟨_, Or.inr ⟨hbb, rfl⟩, ?_⟩
        have hres := afterParse_outcomes args env none _ ret tr hap
        simpa [List.append_assoc] using hres
    · -- derived output name
      right
      rcases runCore_cases args env bifName
          (some (derive_filename bifName dotBin))
          (ev0 ++ [Event.deriveOutput (derive_filename bifName dotBin)])
          ret tr hcore with ⟨a, ha, hbr⟩
      refine ⟨some (derive_filename bifName dotBin),
        [Event.deriveOutput (derive_filename bifName dotBin)], a,
        Or.inr (Or.inr ⟨hb, hp, hm, rfl, rfl⟩), ha, ?_⟩
      rcases hbr with ⟨hbb, hmb, hret, htr⟩ | ⟨hbb, hmb, hap⟩ | ⟨hbb, hap⟩
      · exact Or.inl ⟨hbb, hmb, hret, by simpa [List.append_assoc] using htr⟩
      · refine Or.inr ⟨_, Or.inl ⟨hbb, hmb, rfl⟩, ?_⟩
        have hres := afterParse_outcomes args env
          (some (derive_filename bifName dotBin)) _ ret tr hap
        simpa [List.append_assoc] using hres
      · refine Or.inr ⟨_, Or.inr ⟨hbb, rfl⟩, ?_⟩
        have hres := afterParse_outcomes args env
          (some (derive_filename bifName dotBin)) _ ret tr hap
        simpa [List.append_assoc] using hres
    · exact Or.inl hc4

theorem inputStage_ev0 {args : Arguments} {env : Env} {bifName : List Char}
    {ev0 : List Event} (h : inputStage args env bifName ev0) :
    ev0 = [] ∨ ev0 = [Event.deriveInput bifName] := by
  rcases h with ⟨_, h⟩ | ⟨_, _, _, h⟩
  · exact Or.inl h
  · exact Or.inr h

theorem outputStage_evd {args : Arguments} {env : Env} {bifName : List Char}
    {binOpt : Option (List Char)} {evd : List Event}
    (h : outputStage args env bifName binOpt evd) :
    evd = [] ∨ evd = [Event.deriveOutput (derive_filename bifName dotBin)] := by
  rcases h with ⟨b, _, _, h⟩ | ⟨_, _, _, h⟩ | ⟨_, _, _, _, h⟩
  · exact Or.inl h
  · exact Or.inl h
  · exact Or.inr h

/-- C1: every word count handed to fwrite is exactly the compositor's
ofile_size (reduced mod 2^32 as a uint32_t), never the allocated
capacity; it happens only in a fully successful run. -/
theorem write_exact_ofile_size (args : Arguments) (env : Env) (ret : RetCode)
    (tr : List Event) (n : Nat) (hrun : run args env = some (ret, tr))
    (hmem : Event.writeWords n ∈ tr) :
    n = env.composeSize % 2 ^ 32 ∧ env.composeErr = 0 ∧ env.fopenOk = true ∧
    ret = RetCode.exitSuccess := by
  rcases run_outcomes args env ret tr hrun with
    ⟨hbf, hmdi, hret, htr⟩ |
    ⟨bifName, ev0, hin,
      ⟨hbin, hpo, hmdo, hret, htr⟩ |
      ⟨binOpt, evd, a, hout, ha,
        ⟨hbb, hmbb, hret, htr⟩ |
        ⟨psrc, hps,
          ⟨hpe, hret, htr⟩ |
          ⟨hpe, hnl, hret, htr⟩ |
          ⟨hpe, hnn, hpon, hret, htr⟩ |
          ⟨hpe, hnn, hpon,
            ⟨hes0, hret, htr⟩ |
            ⟨ea, hesN, hea,
              ⟨hmfd, hret, htr⟩ |
              ⟨hmfd,
                ⟨hce, hret, htr⟩ |
                ⟨hce, hfo, hret, htr⟩ |
                ⟨hce, hfo, hret, htr⟩⟩⟩⟩⟩⟩⟩
  · subst htr; simp at hmem
  · subst htr
    rcases inputStage_ev0 hin with rfl | rfl <;> simp at hmem
  all_goals subst htr
  all_goals rcases inputStage_ev0 hin with rfl | rfl <;>
    rcases outputStage_evd hout with rfl | rfl <;>
    simp at hmem <;>
    exact ⟨hmem, hce, hfo, hret⟩

/-- C3: the output file is opened only in runs where parsing,
estimation, allocation and composition all succeeded, and only after
the compose step appears in the trace; any earlier failure leaves the
output path untouched. -/
theorem output_opened_only_after_compose (args : Arguments) (env : Env)
    (ret : RetCode) (tr : List Event) (p : List Char)
    (hrun : run args env = some (ret, tr)) (hmem : Event.openOutput p ∈ tr) :
    env.parseErr = 0 ∧ env.parseNodes ≠ [] ∧ args.parse_only = false ∧
    env.esize % 2 ^ 32 ≠ 0 ∧ env.mallocFileData = true ∧
    env.composeErr = 0 ∧
    ∃ pre post, tr = pre ++ Event.compose :: post ∧
      Event.openOutput p ∈ post := by
  rcases run_outcomes args env ret tr hrun with
    ⟨hbf, hmdi, hret, htr⟩ |
    ⟨bifName, ev0, hin,
      ⟨hbin, hpo, hmdo, hret, htr⟩ |
      ⟨binOpt, evd, a, hout, ha,
        ⟨hbb, hmbb, hret, htr⟩ |
        ⟨psrc, hps,
          ⟨hpe, hret, htr⟩ |
          ⟨hpe, hnl, hret, htr⟩ |
          ⟨hpe, hnn, hpon, hret, htr⟩ |
          ⟨hpe, hnn, hpon,
            ⟨hes0, hret, htr⟩ |
            ⟨ea, hesN, hea,
              ⟨hmfd, hret, htr⟩ |
              ⟨hmfd,
                ⟨hce, hret, htr⟩ |
                ⟨hce, hfo, hret, htr⟩ |
                ⟨hce, hfo, hret, htr⟩⟩⟩⟩⟩⟩⟩
  · subst htr; simp at hmem
  · subst htr
    rcases inputStage_ev0 hin with rfl | rfl <;> simp at hmem
  · subst htr
    rcases inputStage_ev0 hin with rfl | rfl <;>
      rcases outputStage_evd hout with rfl | rfl <;> simp at hmem
  · subst htr
    rcases inputStage_ev0 hin with rfl | rfl <;>
      rcases outputStage_evd hout with rfl | rfl <;> simp at hmem
  · subst htr
    rcases inputStage_ev0 hin with rfl | rfl <;>
      rcases outputStage_evd hout with rfl | rfl <;> simp at hmem
  · subst htr
    rcases inputStage_ev0 hin with rfl | rfl <;>
      rcases outputStage_evd hout with rfl | rfl <;> simp at hmem
  · subst htr
    rcases inputStage_ev0 hin with rfl | rfl <;>
      rcases outputStage_evd hout with rfl | rfl <;> simp at hmem
  · subst htr
    rcases inputStage_ev0 hin with rfl | rfl <;>
      rcases outputStage_evd hout with rfl | rfl <;> simp at hmem
  · subst htr
    rcases inputStage_ev0 hin with rfl | rfl <;>
      rcases outputStage_evd hout with rfl | rfl <;> simp at hmem
  · subst htr
    have hp : p = binOpt.getD [] := by
      rcases inputStage_ev0 hin with rfl | rfl <;>
        rcases outputStage_evd hout with rfl | rfl <;>
        simp at hmem <;> exact hmem
    subst hp
    refine ⟨hpe, hnn, hpon, hesN, hmfd, hce,
      (ev0 ++ evd) ++ [Event.setArch a, Event.setBops a, Event.parse psrc,
        Event.estimate, Event.allocFileData ea],
      [Event.openOutput (binOpt.getD []),
       Event.writeWords (env.composeSize % 2 ^ 32),
       Event.closeOutput, Event.freeFileData],
      by simp [List.append_assoc], by simp⟩
  · subst htr
    have hp : p = binOpt.getD [] := by
      rcases inputStage_ev0 hin with rfl | rfl <;>
        rcases outputStage_evd hout with rfl | rfl <;>
        simp at hmem <;> exact hmem
    subst hp
    refine ⟨hpe, hnn, hpon, hesN, hmfd, hce,
      (ev0 ++ evd) ++ [Event.setArch a, Event.setBops a, Event.parse psrc,
        Event.estimate, Event.allocFileData ea],
      [Event.openOutput (binOpt.getD []), Event.freeFileData],
      by simp [List.append_assoc], by simp⟩

/-- C9: when the composed image is ready but the output file cannot be
opened, the run surfaces the distinct ERROR_CANT_WRITE code, the image
buffer is released, and no words are written. -/
theorem cant_write_surfaced_and_freed (args : Arguments) (env : Env)
    (ret : RetCode) (tr : List Event) (p : List Char)
    (hrun : run args env = some (ret, tr)) (hmem : Event.openOutput p ∈ tr)
    (hfow : env.fopenOk = false) :
    ret = RetCode.errCantWrite ∧ Event.freeFileData ∈ tr ∧
    ∀ n, Event.writeWords n ∉ tr := by
  rcases run_outcomes args env ret tr hrun with
    ⟨hbf, hmdi, hret, htr⟩ |
    ⟨bifName, ev0, hin,
      ⟨hbin, hpo, hmdo, hret, htr⟩ |
      ⟨binOpt, evd, a, hout, ha,
        ⟨hbb, hmbb, hret, htr⟩ |
        ⟨psrc, hps,
          ⟨hpe, hret, htr⟩ |
          ⟨hpe, hnl, hret, htr⟩ |
          ⟨hpe, hnn, hpon, hret, htr⟩ |
          ⟨hpe, hnn, hpon,
            ⟨hes0, hret, htr⟩ |
            ⟨ea, hesN, hea,
              ⟨hmfd, hret, htr⟩ |
              ⟨hmfd,
                ⟨hce, hret, htr⟩ |
                ⟨hce, hfo, hret, htr⟩ |
                ⟨hce, hfo, hret, htr⟩⟩⟩⟩⟩⟩⟩
  · subst htr; simp at hmem
  · subst htr
    rcases inputStage_ev0 hin with rfl | rfl <;> simp at hmem
  · subst htr
    rcases inputStage_ev0 hin with rfl | rfl <;>
      rcases outputStage_evd hout with rfl | rfl <;> simp at hmem
  · subst htr
    rcases inputStage_ev0 hin with rfl | rfl <;>
      rcases outputStage_evd hout with rfl | rfl <;> simp at hmem
  · subst htr
    rcases inputStage_ev0 hin with rfl | rfl <;>
      rcases outputStage_evd hout with rfl | rfl <;> simp at hmem
  · subst htr
    rcases inputStage_ev0 hin with rfl | rfl <;>
      rcases outputStage_evd hout with rfl | rfl <;> simp at hmem
  · subst htr
    rcases inputStage_ev0 hin with rfl | rfl <;>
      rcases outputStage_evd hout with rfl | rfl <;> simp at hmem
  · subst htr
    rcases inputStage_ev0 hin with rfl | rfl <;>
      rcases outputStage_evd hout with rfl | rfl <;> simp at hmem
  · subst htr
    rcases inputStage_ev0 hin with rfl | rfl <;>
      rcases outputStage_evd hout with rfl | rfl <;> simp at hmem
  · rw [hfow] at hfo; cases hfo
  · subst htr
    refine ⟨hret, by simp, ?_⟩
    intro n
    rcases inputStage_ev0 hin with rfl | rfl <;>
      rcases outputStage_evd hout with rfl | rfl <;> simp

/-- C7: a nonzero error code from the BIF parser or from the image
compositor is propagated unchanged as the process result, and a
propagated error is never the success code. -/
theorem errors_propagate_unchanged (args : Arguments) (env : Env)
    (ret : RetCode) (tr : List Event) (hrun : run args env = some (ret, tr)) :
    ((∃ s, Event.parse s ∈ tr) → env.parseErr ≠ 0 →
      ret = RetCode.err env.parseErr) ∧
    (Event.compose ∈ tr → env.composeErr ≠ 0 →
      ret = RetCode.err env.composeErr) ∧
    (∀ e, RetCode.err e ≠ RetCode.exitSuccess) := by
  rcases run_outcomes args env ret tr hrun with
    ⟨hbf, hmdi, hret, htr⟩ |
    ⟨bifName, ev0, hin,
      ⟨hbin, hpo, hmdo, hret, htr⟩ |
      ⟨binOpt, evd, a, hout, ha,
        ⟨hbb, hmbb, hret, htr⟩ |
        ⟨psrc, hps,
          ⟨hpe, hret, htr⟩ |
          ⟨hpe, hnl, hret, htr⟩ |
          ⟨hpe, hnn, hpon, hret, htr⟩ |
          ⟨hpe, hnn, hpon,
            ⟨hes0, hret, htr⟩ |
            ⟨ea, hesN, hea,
              ⟨hmfd, hret, htr⟩ |
              ⟨hmfd,
                ⟨hce, hret, htr⟩ |
                ⟨hce, hfo, hret, htr⟩ |
                ⟨hce, hfo, hret, htr⟩⟩⟩⟩⟩⟩⟩
  all_goals subst htr
  all_goals refine ⟨fun hex hne => ?_, fun hcm hne => ?_, fun e => by simp⟩
  all_goals
    first
      | exact hret
      | exact absurd hpe hne
      | exact absurd hce hne
      | (obtain ⟨s, hs⟩ := hex
         rcases inputStage_ev0 hin with rfl | rfl <;>
           rcases outputStage_evd hout with rfl | rfl <;> simp at hs)
      | (rcases inputStage_ev0 hin with rfl | rfl <;>
           rcases outputStage_evd hout with rfl | rfl <;> simp at hcm)
      | (obtain ⟨s, hs⟩ := hex
         rcases inputStage_ev0 hin with rfl | rfl <;> simp at hs)
      | (rcases inputStage_ev0 hin with rfl | rfl <;> simp at hcm)
      | (obtain ⟨s, hs⟩ := hex; simp at hs)
      | simp at hcm

theorem run_prefix2 (args : Arguments) (env : Env) (ret : RetCode)
    (tr : List Event) (h : run args env = some (ret, tr)) :
    (args.bif_filename = none ∧ env.mallocDeriveInput = false ∧ tr = []) ∨
    (∃ bifName ev0, inputStage args env bifName ev0 ∧
      ((args.bin_filename = none ∧ args.parse_only = false ∧
         env.mallocDeriveOutput = false ∧ tr = ev0) ∨
       (∃ binOpt evd suf, outputStage args env bifName binOpt evd ∧
         tr = (ev0 ++ evd) ++ suf))) := by
  rcases run_outcomes args env ret tr h with
    ⟨hbf, hmdi, hret, htr⟩ |
    ⟨bifName, ev0, hin,
      ⟨hbin, hpo, hmdo, hret, htr⟩ |
      ⟨binOpt, evd, a, hout, ha,
        ⟨hbb, hmbb, hret, htr⟩ |
        ⟨psrc, hps,
          ⟨hpe, hret, htr⟩ |
          ⟨hpe, hnl, hret, htr⟩ |
          ⟨hpe, hnn, hpon, hret, htr⟩ |
          ⟨hpe, hnn, hpon,
            ⟨hes0, hret, htr⟩ |
            ⟨ea, hesN, hea,
              ⟨hmfd, hret, htr⟩ |
              ⟨hmfd,
                ⟨hce, hret, htr⟩ |
                ⟨hce, hfo, hret, htr⟩ |
                ⟨hce, hfo, hret, htr⟩⟩⟩⟩⟩⟩⟩
  · exact Or.inl ⟨hbf, hmdi, htr⟩
  · exact Or.inr ⟨bifName, ev0, hin, Or.inl ⟨hbin, hpo, hmdo, htr⟩⟩
  all_goals subst htr
  all_goals exact Or.inr ⟨bifName, ev0, hin, Or.inr ⟨binOpt, evd, _, hout, by
    simp only [List.append_assoc, List.cons_append, List.nil_append]
    rfl⟩⟩

/-- C8: in every run that reaches architecture selection, cfg.arch and
the bootrom operations table are chosen together, exactly once, from
the zynqmp flag, before any parse event, and no later event reselects
them; a run that aborts earlier performs no selection and no parse. -/
theorem arch_selected_once_before_parse (args : Arguments) (env : Env)
    (ret : RetCode) (tr : List Event) (hrun : run args env = some (ret, tr)) :
    (tr.all (fun e => !isSelectEvent e) ∧ ∀ s, Event.parse s ∉ tr) ∨
    (∃ pre post,
      tr = pre ++ [Event.setArch (if args.zynqmp then Arch.zynqmp else Arch.zynq),
        Event.setBops (if args.zynqmp then Arch.zynqmp else Arch.zynq)] ++ post ∧
      (∀ e ∈ pre, isDeriveEvent e = true) ∧
      (∀ e ∈ post, isSelectEvent e = false)) := by
  rcases run_outcomes args env ret tr hrun with
    ⟨hbf, hmdi, hret, htr⟩ |
    ⟨bifName, ev0, hin,
      ⟨hbin, hpo, hmdo, hret, htr⟩ |
      ⟨binOpt, evd, a, hout, ha,
        ⟨hbb, hmbb, hret, htr⟩ |
        ⟨psrc, hps,
          ⟨hpe, hret, htr⟩ |
          ⟨hpe, hnl, hret, htr⟩ |
          ⟨hpe, hnn, hpon, hret, htr⟩ |
          ⟨hpe, hnn, hpon,
            ⟨hes0, hret, htr⟩ |
            ⟨ea, hesN, hea,
              ⟨hmfd, hret, htr⟩ |
              ⟨hmfd,
                ⟨hce, hret, htr⟩ |
                ⟨hce, hfo, hret, htr⟩ |
                ⟨hce, hfo, hret, htr⟩⟩⟩⟩⟩⟩⟩
  · subst htr; exact Or.inl ⟨by simp, by simp⟩
  · subst htr
    rcases inputStage_ev0 hin with rfl | rfl <;>
      exact Or.inl ⟨by simp [isSelectEvent], by simp⟩
  all_goals subst htr
  all_goals subst ha
  all_goals right
  all_goals refine ⟨ev0 ++ evd, _, by
    simp only [List.append_assoc, List.cons_append, List.nil_append]
    rfl, ?_, ?_⟩
  all_goals
    solve
      | (rcases inputStage_ev0 hin with rfl | rfl <;>
          rcases outputStage_evd hout with rfl | rfl <;>
          simp [isDeriveEvent])
      | simp [isSelectEvent]

theorem outputStage_parse_only {args : Arguments} {env : Env}
    {bifName : List Char} {binOpt : Option (List Char)} {evd : List Event}
    (hponly : args.parse_only = true)
    (hout : outputStage args env bifName binOpt evd) : evd = [] := by
  rcases hout with ⟨b, _, _, h⟩ | ⟨_, _, _, h⟩ | ⟨_, hp2, _, _, _⟩
  · exact h
  · exact h
  · rw [hponly] at hp2; cases hp2

/-- C4 (amended): a parse-only run never estimates, never allocates an
output buffer, and never derives, opens or writes the output path; it
returns success exactly when the parse succeeded with at least one
node (with zero nodes it returns the no-partitions code instead). -/
theorem parse_only_no_synthesis (args : Arguments) (env : Env) (ret : RetCode)
    (tr : List Event) (hrun : run args env = some (ret, tr))
    (hponly : args.parse_only = true) :
    (∀ s, env.parseErr = 0 → env.parseNodes ≠ [] → Event.parse s ∈ tr →
      ret = RetCode.exitSuccess) ∧
    Event.estimate ∉ tr ∧ (∀ c, Event.allocFileData c ∉ tr) ∧
    (∀ p, Event.openOutput p ∉ tr) ∧ (∀ n, Event.writeWords n ∉ tr) ∧
    (∀ q, Event.deriveOutput q ∉ tr) := by
  rcases run_outcomes args env ret tr hrun with
    ⟨hbf, hmdi, hret, htr⟩ |
    ⟨bifName, ev0, hin,
      ⟨hbin, hpo, hmdo, hret, htr⟩ |
      ⟨binOpt, evd, a, hout, ha,
        ⟨hbb, hmbb, hret, htr⟩ |
        ⟨psrc, hps,
          ⟨hpe, hret, htr⟩ |
          ⟨hpe, hnl, hret, htr⟩ |
          ⟨hpe, hnn, hpon, hret, htr⟩ |
          ⟨hpe, hnn, hpon,
            ⟨hes0, hret, htr⟩ |
            ⟨ea, hesN, hea,
              ⟨hmfd, hret, htr⟩ |
              ⟨hmfd,
                ⟨hce, hret, htr⟩ |
                ⟨hce, hfo, hret, htr⟩ |
                ⟨hce, hfo, hret, htr⟩⟩⟩⟩⟩⟩⟩
  all_goals try (rw [hponly] at hpon; simp at hpon)
  all_goals try (rw [hponly] at hpo; simp at hpo)
  · subst htr
    exact ⟨fun s _ _ hm => by simp at hm, by simp, fun c => by simp,
      fun p => by simp, fun n => by simp, fun q => by simp⟩
  all_goals have hevd := outputStage_parse_only hponly hout
  all_goals subst hevd
  all_goals subst htr
  · rcases inputStage_ev0 hin with rfl | rfl <;>
      exact ⟨fun s _ _ hm => by simp at hm, by simp, fun c => by simp,
        fun p => by simp, fun n => by simp, fun q => by simp⟩
  · rcases inputStage_ev0 hin with rfl | rfl <;>
      exact ⟨fun s h1 _ _ => absurd h1 hpe, by simp, fun c => by simp,
        fun p => by simp, fun n => by simp, fun q => by simp⟩
  · rcases inputStage_ev0 hin with rfl | rfl <;>
      exact ⟨fun s _ h2 _ => absurd hnl h2, by simp, fun c => by simp,
        fun p => by simp, fun n => by simp, fun q => by simp⟩
  · rcases inputStage_ev0 hin with rfl | rfl <;>
      exact ⟨fun s _ _ _ => hret, by simp, fun c => by simp,
        fun p => by simp, fun n => by simp, fun q => by simp⟩

/-- C4 counterexample: a parse-only run whose input parses successfully
(zero nodes) does not return success but ERROR_BOOTROM_NOFILE, so the
claim as stated fails at this input. -/
theorem parse_only_zero_nodes_not_success :
    run argsPO envE = some (RetCode.errBootromNofile, trP) ∧
    RetCode.errBootromNofile ≠ RetCode.exitSuccess :=
  ⟨by decide, by decide⟩

/-- C5 (amended): a parse-only run over a successfully parsed
configuration with zero nodes returns the distinct no-partitions code
ERROR_BOOTROM_NOFILE: not the success code, and not a propagated
parser error. -/
theorem parse_only_empty_cfg_nofile (args : Arguments) (env : Env)
    (ret : RetCode) (tr : List Event) (s : ParseSource)
    (hrun : run args env = some (ret, tr)) (hponly : args.parse_only = true)
    (hpe0 : env.parseErr = 0) (hnl0 : env.parseNodes = [])
    (hmem : Event.parse s ∈ tr) :
    ret = RetCode.errBootromNofile ∧ ret ≠ RetCode.exitSuccess ∧
    ∀ e, ret ≠ RetCode.err e := by
  rcases run_outcomes args env ret tr hrun with
    ⟨hbf, hmdi, hret, htr⟩ |
    ⟨bifName, ev0, hin,
      ⟨hbin, hpo, hmdo, hret, htr⟩ |
      ⟨binOpt, evd, a, hout, ha,
        ⟨hbb, hmbb, hret, htr⟩ |
        ⟨psrc, hps,
          ⟨hpe, hret, htr⟩ |
          ⟨hpe, hnl, hret, htr⟩ |
          ⟨hpe, hnn, hpon, hret, htr⟩ |
          ⟨hpe, hnn, hpon,
            ⟨hes0, hret, htr⟩ |
            ⟨ea, hesN, hea,
              ⟨hmfd, hret, htr⟩ |
              ⟨hmfd,
                ⟨hce, hret, htr⟩ |
                ⟨hce, hfo, hret, htr⟩ |
                ⟨hce, hfo, hret, htr⟩⟩⟩⟩⟩⟩⟩
  all_goals try exact absurd hpe0 hpe
  all_goals try exact absurd hnl0 hnn
  · subst htr; simp at hmem
  · rw [hponly] at hpo; cases hpo
  · subst htr
    rcases inputStage_ev0 hin with rfl | rfl <;>
      rcases outputStage_evd hout with rfl | rfl <;> simp at hmem
  · exact ⟨hret, by simp [hret], fun e => by simp [hret]⟩

/-- C5 counterexample: the parse-only inspection of an empty
configuration does not succeed; it returns ERROR_BOOTROM_NOFILE. -/
theorem empty_cfg_parse_only_not_success :
    (run argsPO envE).map Prod.fst = some RetCode.errBootromNofile ∧
    RetCode.errBootromNofile ≠ RetCode.exitSuccess :=
  ⟨by decide, by decide⟩

/-- C2 (amended): for a nonzero estimate of at most 2^31 words, the
power-of-two rounding loop terminates on a capacity that is a power of
two, at least 2 and at least the estimate, and every buffer allocation
in such a run uses exactly that capacity.  (Estimates above 2^31 make
the uint32 doubling wrap to zero and the loop never terminates — see
the counterexample.) -/
theorem esize_align_pow2_allocation (esize : Nat) (h1 : 1 ≤ esize)
    (h2 : esize ≤ 2 ^ 31) :
    ∃ r, esizeAlign esize = some r ∧ 2 ≤ r ∧ esize ≤ r ∧
      (∃ k, r = 2 ^ k) ∧
      ∀ args env ret tr c, env.esize = esize → run args env = some (ret, tr) →
        Event.allocFileData c ∈ tr → c = r := by
  obtain ⟨r, k, hr, hesize, hk, hpow⟩ := esizeAlign_succeeds esize h1 h2
  have h2r : 2 ≤ r := by
    subst hpow
    calc 2 = 2 ^ 1 := by norm_num
    _ ≤ 2 ^ k := Nat.pow_le_pow_right (by norm_num) hk
  refine ⟨r, hr, h2r, hesize, ⟨k, hpow⟩, ?_⟩
  intro args env ret tr c hes hrun hmem
  have hmod : env.esize % 2 ^ 32 = esize := by
    subst hes
    exact Nat.mod_eq_of_lt (lt_of_le_of_lt h2 (by norm_num))
  have hear : ∀ ea, esizeAlign (env.esize % 2 ^ 32) = some ea → ea = r := by
    intro ea hea
    rw [hmod, hr] at hea
    exact (Option.some.inj hea).symm
  rcases run_outcomes args env ret tr hrun with
    ⟨hbf, hmdi, hret, htr⟩ |
    ⟨bifName, ev0, hin,
      ⟨hbin, hpo, hmdo, hret, htr⟩ |
      ⟨binOpt, evd, a, hout, ha,
        ⟨hbb, hmbb, hret, htr⟩ |
        ⟨psrc, hps,
          ⟨hpe, hret, htr⟩ |
          ⟨hpe, hnl, hret, htr⟩ |
          ⟨hpe, hnn, hpon, hret, htr⟩ |
          ⟨hpe, hnn, hpon,
            ⟨hes0, hret, htr⟩ |
            ⟨ea, hesN, hea,
              ⟨hmfd, hret, htr⟩ |
              ⟨hmfd,
                ⟨hce, hret, htr⟩ |
                ⟨hce, hfo, hret, htr⟩ |
                ⟨hce, hfo, hret, htr⟩⟩⟩⟩⟩⟩⟩
  · subst htr; simp at hmem
  · subst htr
    rcases inputStage_ev0 hin with rfl | rfl <;> simp at hmem
  all_goals subst htr
  all_goals
    rcases inputStage_ev0 hin with rfl | rfl <;>
    rcases outputStage_evd hout with rfl | rfl <;>
    simp at hmem <;>
    exact hmem.trans (hear ea hea)

/-- C2 counterexample: at the nonzero 32-bit estimate 2^31 + 1 the
rounding loop never terminates (the uint32 doubling wraps to zero), so
the whole run diverges. -/
theorem align_loop_diverges_beyond_2_31 :
    ¬ alignTerminates (2 ^ 31 + 1) ∧ run argsH envBig = none := by
  constructor
  · rintro ⟨fuel, r, hr⟩
    have h := alignLoop_stuck_above fuel 2 (Or.inr ⟨1, by norm_num, by norm_num⟩)
    rw [h] at hr
    cases hr
  · decide

theorem inputStage_some {args : Arguments} {env : Env} {bifName : List Char}
    {ev0 : List Event} {p : List Char} (hbif : args.bif_filename = some p)
    (hin : inputStage args env bifName ev0) : bifName = p := by
  rcases hin with ⟨hsome, _⟩ | ⟨hn, _, _, _⟩
  · rw [hbif] at hsome; exact (Option.some.inj hsome).symm
  · rw [hbif] at hn; cases hn

theorem parseStage_bit2bin {args : Arguments} {env : Env}
    {bifName : List Char} {psrc : ParseSource} (hb2b : args.bit2bin = true)
    (hps : parseStage args env bifName psrc) :
    psrc = ParseSource.buffer (bit2binDoc bifName) bit2binLabel := by
  rcases hps with ⟨_, _, h⟩ | ⟨hbb2, _⟩
  · exact h
  · rw [hb2b] at hbb2; cases hbb2

theorem afterAlloc_fst_congr (env : Env)
    (binOpt binOpt' : Option (List Char)) (ev ev' : List Event) :
    (afterAlloc env binOpt ev).map Prod.fst =
    (afterAlloc env binOpt' ev').map Prod.fst := by
  simp only [afterAlloc]
  split_ifs <;> simp

theorem afterEstimate_fst_congr (env : Env)
    (binOpt binOpt' : Option (List Char)) (ev ev' : List Event) :
    (afterEstimate env binOpt ev).map Prod.fst =
    (afterEstimate env binOpt' ev').map Prod.fst := by
  simp only [afterEstimate]
  by_cases h0 : env.esize % 2 ^ 32 = 0
  · rw [if_pos h0, if_pos h0]
    rfl
  · rw [if_neg h0, if_neg h0]
    cases hcase : esizeAlign (env.esize % 2 ^ 32) with
    | none => rfl
    | some ea =>
      show Option.map Prod.fst
          (if env.mallocFileData = true
            then afterAlloc env binOpt (ev ++ [Event.allocFileData ea])
            else some (RetCode.errNomem, ev ++ [Event.allocFileData ea])) =
        Option.map Prod.fst
          (if env.mallocFileData = true
            then afterAlloc env binOpt' (ev' ++ [Event.allocFileData ea])
            else some (RetCode.errNomem, ev' ++ [Event.allocFileData ea]))
      by_cases hm : env.mallocFileData
      · rw [if_pos hm, if_pos hm]
        exact afterAlloc_fst_congr env binOpt binOpt' _ _
      · rw [if_neg hm, if_neg hm]
        rfl

theorem afterParse_fst_congr (args args' : Arguments) (env : Env)
    (binOpt binOpt' : Option (List Char)) (ev ev' : List Event)
    (hpo : args.parse_only = args'.parse_only) :
    (afterParse args env binOpt ev).map Prod.fst =
    (afterParse args' env binOpt' ev').map Prod.fst := by
  unfold afterParse
  rw [hpo]
  split_ifs <;>
    first
      | rfl
      | exact afterEstimate_fst_congr env binOpt binOpt' _ _

theorem runCore_fst_b2b_congr (args args' : Arguments) (env : Env)
    (bn bn' : List Char) (binOpt binOpt' : Option (List Char))
    (ev ev' : List Event) (hpo : args.parse_only = args'.parse_only)
    (hb2b : args.bit2bin = true) (hmb : env.mallocBifBuf = true)
    (hb2b' : args'.bit2bin = false) :
    (runCore args env bn binOpt ev).map Prod.fst =
    (runCore args' env bn' binOpt' ev').map Prod.fst := by
  simp only [runCore]
  rw [if_pos hb2b, if_pos hmb,
    if_neg (show ¬(args'.bit2bin = true) by simp [hb2b'])]
  exact afterParse_fst_congr args args' env binOpt binOpt' _ _ hpo

theorem run_fst_bit2bin_irrel (args : Arguments) (env : Env)
    (hb2b : args.bit2bin = true) (hmb : env.mallocBifBuf = true) :
    (run args env).map Prod.fst =
    (run { args with bit2bin := false } env).map Prod.fst := by
  have houtp : ∀ (bn bn' : List Char) (ev ev' : List Event),
      (runOutput args env bn ev).map Prod.fst =
      (runOutput { args with bit2bin := false } env bn' ev').map Prod.fst := by
    intro bn bn' ev ev'
    simp only [runOutput]
    cases hbin : args.bin_filename with
    | some b =>
      exact runCore_fst_b2b_congr args _ env bn bn' (some b) (some b) _ _
        rfl hb2b hmb rfl
    | none =>
      by_cases hpo : args.parse_only = true
      · rw [if_pos hpo, if_pos hpo]
        exact runCore_fst_b2b_congr args _ env bn bn' none none _ _
          rfl hb2b hmb rfl
      · rw [if_neg hpo, if_neg hpo]
        by_cases hmd : env.mallocDeriveOutput = true
        · rw [if_pos hmd, if_pos hmd]
          exact runCore_fst_b2b_congr args _ env bn bn'
            (some (derive_filename bn dotBin))
            (some (derive_filename bn' dotBin)) _ _ rfl hb2b hmb rfl
        · rw [if_neg hmd, if_neg hmd]
          rfl
  simp only [run]
  cases hbif : args.bif_filename with
  | some p => exact houtp p p [] []
  | none =>
    by_cases hmdi : env.mallocDeriveInput = true
    · rw [if_pos hmdi, if_pos hmdi]
      exact houtp _ _ _ _
    · rw [if_neg hmdi, if_neg hmdi]

/-- C6: in every bit2bin run, each parse event carries the synthesized
one-node BIF document built from the resolved input path — the given
input name, or the one derived from the output name with ".bit" — fed
to the buffer parser entry with origin label "<bit2bin>", and the
process result is the same as that of an otherwise identical
non-bit2bin run in the same environment: no special case downstream of
the parser. -/
theorem bit2bin_wraps_and_reuses_bif_entry (args : Arguments) (env : Env)
    (ret : RetCode) (tr : List Event)
    (hrun : run args env = some (ret, tr)) (hb2b : args.bit2bin = true)
    (hmb : env.mallocBifBuf = true) :
    (∀ s, Event.parse s ∈ tr →
      ∃ p, (args.bif_filename = some p ∨
            (args.bif_filename = none ∧
              p = derive_filename (args.bin_filename.getD []) dotBit ∧
              Event.deriveInput p ∈ tr)) ∧
        s = ParseSource.buffer (bit2binDoc p) bit2binLabel) ∧
    (∀ q, bit2binDoc q = "all: \x7b ".toList ++ q ++ " \x7d\n".toList) ∧
    (run args env).map Prod.fst =
      (run { args with bit2bin := false } env).map Prod.fst := by
  refine ⟨?_, fun q => rfl, run_fst_bit2bin_irrel args env hb2b hmb⟩
  rcases run_outcomes args env ret tr hrun with
    ⟨hbf, hmdi, hret, htr⟩ |
    ⟨bifName, ev0, hin,
      ⟨hbin, hpo, hmdo, hret, htr⟩ |
      ⟨binOpt, evd, a, hout, ha,
        ⟨hbb, hmbb, hret, htr⟩ |
        ⟨psrc, hps,
          ⟨hpe, hret, htr⟩ |
          ⟨hpe, hnl, hret, htr⟩ |
          ⟨hpe, hnn, hpon, hret, htr⟩ |
          ⟨hpe, hnn, hpon,
            ⟨hes0, hret, htr⟩ |
            ⟨ea, hesN, hea,
              ⟨hmfd, hret, htr⟩ |
              ⟨hmfd,
                ⟨hce, hret, htr⟩ |
                ⟨hce, hfo, hret, htr⟩ |
                ⟨hce, hfo, hret, htr⟩⟩⟩⟩⟩⟩⟩
  all_goals try (rw [hmb] at hmbb; simp at hmbb)
  all_goals subst htr
  · intro s hm; simp at hm
  · intro s hm
    rcases inputStage_ev0 hin with rfl | rfl <;> simp at hm
  all_goals
    (have hsrc := parseStage_bit2bin hb2b hps
     subst hsrc
     intro s hm
     rcases hin with ⟨hsome, hev⟩ | ⟨hnone, hmdi2, hbn, hev⟩ <;>
       subst hev <;>
       rcases outputStage_evd hout with rfl | rfl <;>
       simp at hm <;>
       first
         | exact ⟨bifName, Or.inl hsome, hm⟩
         | exact ⟨bifName, Or.inr ⟨hnone,
             by rw [hb2b] at hbn; simpa using hbn, by simp⟩, hm⟩)

/-- C10: derive_filename replaces the extension of the path's basename
(text from the last dot of the basename, with both slash and backslash
recognized as separators) with the new extension, appending it when
the basename has no dot; the driver derives a missing input name from
the output name with ".bit" (bit2bin) or ".bif", and a missing output
name from the input name with ".bin". -/
theorem derive_filename_extension_contract :
    (∀ src ext : List Char,
      (∀ c ∈ src.drop (baseStart src), isDot c = false) →
      derive_filename src ext = src ++ ext) ∧
    (∀ stem suffix ext : List Char,
      (∀ c ∈ suffix, isDot c = false ∧ isSep c = false) →
      derive_filename (stem ++ '.' :: suffix) ext = stem ++ ext) ∧
    (∀ args env ret tr b, run args env = some (ret, tr) →
      args.bif_filename = none → args.bin_filename = some b →
      env.mallocDeriveInput = true →
      Event.deriveInput (derive_filename b
        (if args.bit2bin then dotBit else dotBif)) ∈ tr) ∧
    (∀ args env ret tr p, run args env = some (ret, tr) →
      args.bif_filename = some p → args.bin_filename = none →
      args.parse_only = false → env.mallocDeriveOutput = true →
      Event.deriveOutput (derive_filename p dotBin) ∈ tr) := by
  refine ⟨derive_filename_no_dot, derive_filename_replaces, ?_, ?_⟩
  · intro args env ret tr b hrun hbif hbin hmdi
    rcases run_prefix2 args env ret tr hrun with
      ⟨_, hmdi2, _⟩ | ⟨bifName, ev0, hin, hrest⟩
    · rw [hmdi] at hmdi2; cases hmdi2
    · rcases hin with ⟨hsome, _⟩ | ⟨_, _, hbn, hev0⟩
      · rw [hbif] at hsome; cases hsome
      · have hget : args.bin_filename.getD [] = b := by rw [hbin]; rfl
        rw [hget] at hbn
        subst hbn
        subst hev0
        rcases hrest with ⟨_, _, _, rfl⟩ | ⟨binOpt, evd, suf, _, rfl⟩
        · simp
        · simp
  · intro args env ret tr p hrun hbif hbin hponly hmdo
    rcases run_prefix2 args env ret tr hrun with
      ⟨hbf, _, _⟩ | ⟨bifName, ev0, hin, hrest⟩
    · rw [hbif] at hbf; cases hbf
    · have hbp := inputStage_some hbif hin
      subst hbp
      rcases hrest with ⟨_, _, hmdo2, _⟩ | ⟨binOpt, evd, suf, hout, rfl⟩
      · rw [hmdo] at hmdo2; cases hmdo2
      · rcases hout with ⟨b, hb, _, _⟩ | ⟨_, hp2, _, _⟩ | ⟨_, _, _, _, rfl⟩
        · rw [hbin] at hb; cases hb
        · rw [hponly] at hp2; cases hp2
        · simp

/-! ### Witnesses: each theorem above applied at a concrete run -/

theorem write_exact_ofile_size_witness :
    (3 : Nat) = envH.composeSize % 2 ^ 32 ∧ envH.composeErr = 0 ∧
    envH.fopenOk = true ∧ RetCode.exitSuccess = RetCode.exitSuccess :=
  write_exact_ofile_size argsH envH RetCode.exitSuccess trH 3
    (by decide) (by decide)

theorem esize_align_pow2_allocation_witness :
    (1 ≤ 5 ∧ (5 : Nat) ≤ 2 ^ 31) ∧
    (∃ r, esizeAlign 5 = some r ∧ 2 ≤ r ∧ 5 ≤ r ∧ (∃ k, r = 2 ^ k) ∧
      ∀ args env ret tr c, env.esize = 5 → run args env = some (ret, tr) →
        Event.allocFileData c ∈ tr → c = r) :=
  ⟨⟨by norm_num, by norm_num⟩,
    esize_align_pow2_allocation 5 (by norm_num) (by norm_num)⟩

theorem output_opened_only_after_compose_witness :
    envH.parseErr = 0 ∧ envH.parseNodes ≠ [] ∧ argsH.parse_only = false ∧
    envH.esize % 2 ^ 32 ≠ 0 ∧ envH.mallocFileData = true ∧
    envH.composeErr = 0 ∧
    ∃ pre post, trH = pre ++ Event.compose :: post ∧
      Event.openOutput ("out.bin".toList) ∈ post :=
  output_opened_only_after_compose argsH envH RetCode.exitSuccess trH
    "out.bin".toList (by decide) (by decide)

theorem parse_only_no_synthesis_witness :
    (∀ s, envH.parseErr = 0 → envH.parseNodes ≠ [] → Event.parse s ∈ trP →
      RetCode.exitSuccess = RetCode.exitSuccess) ∧
    Event.estimate ∉ trP ∧ (∀ c, Event.allocFileData c ∉ trP) ∧
    (∀ p, Event.openOutput p ∉ trP) ∧ (∀ n, Event.writeWords n ∉ trP) ∧
    (∀ q, Event.deriveOutput q ∉ trP) :=
  parse_only_no_synthesis argsPO envH RetCode.exitSuccess trP
    (by decide) (by decide)

theorem parse_only_empty_cfg_nofile_witness :
    RetCode.errBootromNofile = RetCode.errBootromNofile ∧
    RetCode.errBootromNofile ≠ RetCode.exitSuccess ∧
    ∀ e, RetCode.errBootromNofile ≠ RetCode.err e :=
  parse_only_empty_cfg_nofile argsPO envE RetCode.errBootromNofile trP
    (ParseSource.file "in.bif".toList) (by decide) (by decide) (by decide)
    (by decide) (by decide)

theorem bit2bin_wraps_and_reuses_bif_entry_witness :
    (∀ s, Event.parse s ∈ trB2Bd →
      ∃ p, (argsB2Bd.bif_filename = some p ∨
            (argsB2Bd.bif_filename = none ∧
              p = derive_filename (argsB2Bd.bin_filename.getD []) dotBit ∧
              Event.deriveInput p ∈ trB2Bd)) ∧
        s = ParseSource.buffer (bit2binDoc p) bit2binLabel) ∧
    (∀ q, bit2binDoc q = "all: \x7b ".toList ++ q ++ " \x7d\n".toList) ∧
    (run argsB2Bd envH).map Prod.fst =
      (run { argsB2Bd with bit2bin := false } envH).map Prod.fst :=
  bit2bin_wraps_and_reuses_bif_entry argsB2Bd envH RetCode.exitSuccess trB2Bd
    (by decide) (by decide) (by decide)

theorem errors_propagate_unchanged_witness :
    ((∃ s, Event.parse s ∈ trP) → envPE.parseErr ≠ 0 →
      RetCode.err 7 = RetCode.err envPE.parseErr) ∧
    (Event.compose ∈ trP → envPE.composeErr ≠ 0 →
      RetCode.err 7 = RetCode.err envPE.composeErr) ∧
    (∀ e, RetCode.err e ≠ RetCode.exitSuccess) :=
  errors_propagate_unchanged argsH envPE (RetCode.err 7) trP (by decide)

theorem arch_selected_once_before_parse_witness :
    (trH.all (fun e => !isSelectEvent e) ∧ ∀ s, Event.parse s ∉ trH) ∨
    (∃ pre post,
      trH = pre ++ [Event.setArch (if argsH.zynqmp then Arch.zynqmp else Arch.zynq),
        Event.setBops (if argsH.zynqmp then Arch.zynqmp else Arch.zynq)] ++ post ∧
      (∀ e ∈ pre, isDeriveEvent e = true) ∧
      (∀ e ∈ post, isSelectEvent e = false)) :=
  arch_selected_once_before_parse argsH envH RetCode.exitSuccess trH (by decide)

theorem cant_write_surfaced_and_freed_witness :
    RetCode.errCantWrite = RetCode.errCantWrite ∧
    Event.freeFileData ∈ trCW ∧ ∀ n, Event.writeWords n ∉ trCW :=
  cant_write_surfaced_and_freed argsH envCW RetCode.errCantWrite trCW
    "out.bin".toList (by decide) (by decide) (by decide)

theorem derive_filename_extension_contract_witness :
    derive_filename ("dir/name".toList ++ '.' :: "bit".toList) (".bin".toList) =
      "dir/name".toList ++ ".bin".toList :=
  derive_filename_extension_contract.2.1 "dir/name".toList "bit".toList
    ".bin".toList (by decide)

end Mkbootimage
